import Mathlib

/-!
Shallow embedding of the `bignum` library (`hiddentao/bignum`).

The library wraps an arbitrary-precision decimal engine (decimal.js,
cloned with default settings and `toExpPos: 33`).  Following the spec's
pinned engine contract (§6: exact arbitrary-precision signed decimal
arithmetic), engine numbers are modelled as exact rationals `ℚ`; the
engine's `toString`/`toBinary`/`toHexadecimal` renderings are modelled
by executable digit-string functions below.

Two revisions of the source are embedded:
  - the current enum-scale revision (`src/index.ts`): `BigVal` with
    `BigValScale.SMALLEST = 0` / `BigValScale.NORMAL = 1`;
  - the historical string-scale revision (`unnamed/part_000`): `LBigVal`
    with scales `"min"` / `"coins"`, `assertValidScale`, and the free
    helper `minStr`.
-/

/-- Errors thrown by the library.  In the source these are plain
`Error` objects distinguished by message (`Invalid scale: ...`,
`Unrecognized scale: ...`) or thrown by the decimal engine on a
malformed numeral. -/
inductive BVErr where
  | parseError
  | invalidScale
  | unrecognizedScale
deriving DecidableEq, Repr

/-- Configuration record (`BigValConfig`): number of decimals relating
the two scales.  The source marks `decimals` optional with default 18;
the default object `{ decimals: 18 }` is `defaultConfig` below. -/
structure BigValConfig where
  decimals : Nat
deriving DecidableEq, Repr

/-- Default configuration `{ decimals: 18 }`. -/
def defaultConfig : BigValConfig := ⟨18⟩

/-- Scale tag of the current revision (`enum BigValScale`):
`SMALLEST = 0`, `NORMAL = 1`. -/
inductive BigValScale where
  | SMALLEST
  | NORMAL
deriving DecidableEq, Repr

/-- Numeric value of a scale tag.  TypeScript enums erase to numbers at
runtime: `SMALLEST = 0`, `NORMAL = 1`. -/
def BigValScale.toInt : BigValScale → Int
  | .SMALLEST => 0
  | .NORMAL => 1

/-- The core value type of the current revision: an exact engine
magnitude `_n`, a scale tag `_scale` and a configuration `_config`. -/
structure BigVal where
  _n : ℚ
  _scale : BigValScale
  _config : BigValConfig
deriving DecidableEq, Repr

/-- Source argument of the `BigVal` constructor.  `inst` is the
`src instanceof BigVal` branch.  `val` covers every other accepted
source (plain number, numeral string, raw engine value, hex-wrapped
big-integer object), carried as the exact value `toDecimal` parses it
to; `toDecimal` on a raw engine value stringifies and re-parses it,
which is the identity on exact values. -/
inductive BVSrc where
  | inst (b : BigVal)
  | val (q : ℚ)

/-- Constructor of the current revision.  Copying from an existing
instance takes the source's magnitude (re-parsed by value via
`toDecimal`), scale and config and ignores the `scale`/`config`
parameters; otherwise the parsed source value is stored together with
the given scale and config.  No scale validation is performed in this
revision (the enum type makes foreign tags untypable). -/
def mkBigVal : BVSrc → BigValScale → BigValConfig → BigVal
  | .inst b, _, _ => ⟨b._n, b._scale, b._config⟩
  | .val q, scale, config => ⟨q, scale, config⟩

/-- Operand of an arithmetic/comparison method (`v: any`).  The method
dispatches on truthiness of `v._n`: a `BigVal` operand carries `_n`
(the `bv` case); every other operand (plain number, numeral string,
raw engine value) is parsed at face value (the `val` case). -/
inductive BVInput where
  | bv (b : BigVal)
  | val (q : ℚ)
deriving DecidableEq, Repr

/-- Engine computation `toDecimal(10).pow(toDecimal(v))`, written as a
structural recursion so that the kernel can evaluate it; the lemma
`tenPow_eq_pow` identifies it with `10 ^ p`. -/
def tenPow : Nat → ℚ
  | 0 => 1
  | p + 1 => 10 * tenPow p

lemma tenPow_eq_pow (p : Nat) : tenPow p = 10 ^ p := by
  induction p with
  | zero => rfl
  | succ p ih => rw [tenPow, ih, pow_succ]; ring

/-- Embeds `scaleDown`: `this.mul(toDecimal(10).pow(toDecimal(v)))`.
The operand is a raw engine value (no `_n` field), so the bound `mul`
combines it at face value and the constructor re-tags the product with
the receiver's scale and config.  The lemma `scaleDown_eq_mul` below
re-checks this definition against the general `mul` method. -/
def BigVal.scaleDown (v : BigVal) (p : Nat) : BigVal :=
  ⟨v._n * tenPow p, v._scale, v._config⟩

/-- Embeds `scaleUp`: `this.div(toDecimal(10).pow(toDecimal(v)))`.
Same remark as for `scaleDown`. -/
def BigVal.scaleUp (v : BigVal) (p : Nat) : BigVal :=
  ⟨v._n / tenPow p, v._scale, v._config⟩

/-- Embeds `toSmallestScale`: returns the receiver unchanged when it is
already at `SMALLEST`; otherwise multiplies the magnitude by
`10^decimals` (via `scaleDown`) and re-tags the freshly constructed
result with `SMALLEST` before returning it. -/
def BigVal.toSmallestScale (v : BigVal) : BigVal :=
  if v._scale = BigValScale.SMALLEST then v
  else { v.scaleDown v._config.decimals with _scale := BigValScale.SMALLEST }

/-- Embeds `toNormalScale`: dual of `toSmallestScale`, dividing by
`10^decimals` and re-tagging the fresh result with `NORMAL`. -/
def BigVal.toNormalScale (v : BigVal) : BigVal :=
  if v._scale = BigValScale.NORMAL then v
  else { v.scaleUp v._config.decimals with _scale := BigValScale.NORMAL }

/-- Embeds `toScale` restricted to the two enum members (the switch's
two labelled cases). -/
def BigVal.toScale (v : BigVal) : BigValScale → BigVal
  | .SMALLEST => v.toSmallestScale
  | .NORMAL => v.toNormalScale

/-- Embeds the runtime behaviour of `toScale` over raw numbers (enums
erase to numbers): the switch matches `0` and `1` and the `default`
branch throws `Unrecognized scale`. -/
def BigVal.toScaleNum (v : BigVal) (scale : Int) : Except BVErr BigVal :=
  if scale = 0 then .ok v.toSmallestScale
  else if scale = 1 then .ok v.toNormalScale
  else .error .unrecognizedScale

/-- Embeds `toDecimalAtOriginalScale`: a `BigVal` operand (truthy `_n`)
is converted to the reference's scale via the operand's own `toScale`;
any other operand is parsed at face value via `toDecimal`. -/
def toDecimalAtOriginalScale (input : BVInput) (reference : BigVal) : ℚ :=
  match input with
  | .bv b => (b.toScale reference._scale)._n
  | .val q => q

/-- Embeds the bound `add` closure:
`new BigVal(this._n.add(toDecimalAtOriginalScale(v, this)), this._scale, this._config)`. -/
def BigVal.add (v : BigVal) (w : BVInput) : BigVal :=
  mkBigVal (.val (v._n + toDecimalAtOriginalScale w v)) v._scale v._config

/-- Embeds the bound `sub` closure. -/
def BigVal.sub (v : BigVal) (w : BVInput) : BigVal :=
  mkBigVal (.val (v._n - toDecimalAtOriginalScale w v)) v._scale v._config

/-- Embeds the bound `mul` closure. -/
def BigVal.mul (v : BigVal) (w : BVInput) : BigVal :=
  mkBigVal (.val (v._n * toDecimalAtOriginalScale w v)) v._scale v._config

/-- Embeds the bound `div` closure (engine division; exact in the
rational engine model). -/
def BigVal.div (v : BigVal) (w : BVInput) : BigVal :=
  mkBigVal (.val (v._n / toDecimalAtOriginalScale w v)) v._scale v._config

/-- Embeds the bound `gt` closure: engine `greaterThan` on the aligned
operand. -/
def BigVal.gt (v : BigVal) (w : BVInput) : Bool :=
  decide (toDecimalAtOriginalScale w v < v._n)

/-- Embeds the bound `gte` closure. -/
def BigVal.gte (v : BigVal) (w : BVInput) : Bool :=
  decide (toDecimalAtOriginalScale w v ≤ v._n)

/-- Embeds the bound `lt` closure. -/
def BigVal.lt (v : BigVal) (w : BVInput) : Bool :=
  decide (v._n < toDecimalAtOriginalScale w v)

/-- Embeds the bound `lte` closure. -/
def BigVal.lte (v : BigVal) (w : BVInput) : Bool :=
  decide (v._n ≤ toDecimalAtOriginalScale w v)

/-- Embeds the bound `eq` closure: engine value equality on the aligned
operand. -/
def BigVal.eq (v : BigVal) (w : BVInput) : Bool :=
  decide (v._n = toDecimalAtOriginalScale w v)

/-- Character for a digit in bases up to 16 (lowercase letters, as the
engine produces). -/
def digitChar (n : Nat) : Char :=
  Char.ofNat (if n < 10 then 48 + n else 87 + n)

/-- Fuelled digit expansion of a natural number in the given base
(most significant first).  Fuel `n+1` always suffices. -/
def natCharsAux : Nat → Nat → Nat → List Char
  | 0, _, _ => []
  | f + 1, b, n => if n < b then [digitChar n] else natCharsAux f b (n / b) ++ [digitChar (n % b)]

/-- Digit string of a natural number in the given base. -/
def natChars (b n : Nat) : List Char := natCharsAux (n + 1) b n

/-- Fuelled digit expansion of a fractional part `r / d` (with
`0 ≤ r < d`) in the given base, by repeated multiply-and-carry on the
numerator.  The engine rounds non-terminating expansions at its
significant-digit budget; the fuel plays that role here (every value
the claims exercise terminates well inside it). -/
def fracChars : Nat → Nat → Nat → Nat → List Char
  | 0, _, _, _ => []
  | f + 1, b, r, d =>
    if r = 0 then []
    else digitChar (r * b / d) :: fracChars f b (r * b % d) d

/-- Digit rendering (integer part, and fractional part after a point
when nonzero) of the nonnegative rational `n / d` in the given
base. -/
def posChars (b fuel n d : Nat) : List Char :=
  natChars b (n / d) ++
    (if n % d = 0 then [] else '.' :: fracChars fuel b (n % d) d)

/-- Engine base-10 rendering (`Decimal#toString`) of an exact value:
sign, then the digits of `|q| = q.num.natAbs / q.den`.  The engine's
switch to exponential notation outside `[1e-7, 1e+33)` is not
modelled; no claim evaluates a rendering in that range. -/
def decStr (q : ℚ) : String :=
  ⟨(if q < 0 then ['-'] else []) ++ posChars 10 80 q.num.natAbs q.den⟩

/-- Engine binary rendering (`Decimal#toBinary`): `0b`-prefixed digit
string with a leading `-` for negative values. -/
def Decimal.toBinary (q : ℚ) : String :=
  ⟨(if q < 0 then ['-', '0', 'b'] else ['0', 'b']) ++ posChars 2 80 q.num.natAbs q.den⟩

/-- Engine hexadecimal rendering (`Decimal#toHexadecimal`):
`0x`-prefixed lowercase digit string with a leading `-` for negative
values. -/
def Decimal.toHexadecimal (q : ℚ) : String :=
  ⟨(if q < 0 then ['-', '0', 'x'] else ['0', 'x']) ++ posChars 16 80 q.num.natAbs q.den⟩

/-- Characters strictly after the first occurrence of `c`, if `c`
occurs. -/
def afterFirst (c : Char) : List Char → Option (List Char)
  | [] => none
  | x :: xs => if x = c then some xs else afterFirst c xs

/-- Characters strictly after the first occurrence of `c`, the whole
list when `c` is absent: JavaScript `s.substr(s.indexOf(c) + 1)`. -/
def substrAfter (c : Char) (cs : List Char) : List Char :=
  (afterFirst c cs).getD cs

/-- Embeds `toString(base)`: the base-2 case renders binary and strips
everything up to and including the first `b`; the base-16 case returns
the hexadecimal rendering; every other base falls through to the
engine's base-10 `toString`. -/
def BigVal.toStr (v : BigVal) (base : Int) : String :=
  if base = 2 then
    let str := Decimal.toBinary v._n
    ⟨substrAfter 'b' str.data⟩
  else if base = 16 then Decimal.toHexadecimal v._n
  else decStr v._n

/-- Post-state view of a bound arithmetic-method call: the method body
reads `this._n`/`this._scale`/`this._config` and the operand, constructs
a brand-new instance, and contains no assignment to either existing
object, so the call returns its result together with the untouched
receiver and operand. -/
def BigVal.addCall (v : BigVal) (w : BVInput) : BigVal × BigVal × BVInput :=
  (v.add w, v, w)

/-- Post-state view of a `sub` call (no assignment in the body). -/
def BigVal.subCall (v : BigVal) (w : BVInput) : BigVal × BigVal × BVInput :=
  (v.sub w, v, w)

/-- Post-state view of a `mul` call (no assignment in the body). -/
def BigVal.mulCall (v : BigVal) (w : BVInput) : BigVal × BigVal × BVInput :=
  (v.mul w, v, w)

/-- Post-state view of a `div` call (no assignment in the body). -/
def BigVal.divCall (v : BigVal) (w : BVInput) : BigVal × BigVal × BVInput :=
  (v.div w, v, w)

/-- Post-state view of a comparison call (no assignment in the body);
parameterised by which comparison runs. -/
def BigVal.cmpCall (op : BigVal → BVInput → Bool) (v : BigVal) (w : BVInput) :
    Bool × BigVal × BVInput :=
  (op v w, v, w)

/-- Value of a decimal digit character, if it is one. -/
def decDigitVal (c : Char) : Option Nat :=
  if 48 ≤ c.toNat ∧ c.toNat ≤ 57 then some (c.toNat - 48) else none

/-- Value of a hexadecimal digit character, if it is one. -/
def hexDigitVal (c : Char) : Option Nat :=
  if 48 ≤ c.toNat ∧ c.toNat ≤ 57 then some (c.toNat - 48)
  else if 97 ≤ c.toNat ∧ c.toNat ≤ 102 then some (c.toNat - 87)
  else if 65 ≤ c.toNat ∧ c.toNat ≤ 70 then some (c.toNat - 55)
  else none

/-- Accumulating evaluation of a nonempty digit run in the given base. -/
def digitsVal (dv : Char → Option Nat) : List Char → Option Nat
  | [] => none
  | cs => cs.foldl (fun acc c => do pure ((← acc) * baseOf dv + (← dv c))) (some 0)
where
  baseOf (dv : Char → Option Nat) : Nat := if dv 'a' = some 10 then 16 else 10

/-- Parse of a numeral string by the engine constructor
(`new PreciseDecimal(str)`): optional sign, then either a
`0x`/`0X`-prefixed hexadecimal integer or decimal digits with an
optional fractional part.  Exponent-notation and binary/octal-prefixed
numerals, which the engine also accepts, are outside the modelled
domain (no claim exercises them); every malformed string is a
`ParseError`. -/
def parseDecStr (s : String) : Option ℚ := do
  let cs := s.data
  let (sgn, cs) : ℚ × List Char :=
    match cs with
    | '-' :: rest => (-1, rest)
    | rest => (1, rest)
  match cs with
  | '0' :: 'x' :: rest => pure (sgn * (← digitsVal hexDigitVal rest : Nat))
  | '0' :: 'X' :: rest => pure (sgn * (← digitsVal hexDigitVal rest : Nat))
  | _ =>
    match cs.span (· ≠ '.') with
    | (ip, []) => pure (sgn * (← digitsVal decDigitVal ip : Nat))
    | (ip, _ :: fp) =>
      if fp.contains '.' then none
      else if ip = [] then
        pure (sgn * ((← digitsVal decDigitVal fp : Nat) : ℚ) / tenPow fp.length)
      else if fp = [] then
        pure (sgn * (← digitsVal decDigitVal ip : Nat))
      else
        pure (sgn * (((← digitsVal decDigitVal ip : Nat) : ℚ) +
          ((← digitsVal decDigitVal fp : Nat) : ℚ) / tenPow fp.length))

/-- The historical string-scale revision (`unnamed/part_000`) names its
class `BigVal` too; it is embedded here as `LBigVal`.  Its scale is a
free string, validated against a lookup in the plain object literal
`SCALE = { coins, min }`. -/
structure LBigVal where
  _n : ℚ
  _scale : String
  _config : BigValConfig
deriving DecidableEq, Repr

/-- Own keys of the `SCALE` record. -/
def scaleKeys : List String := ["coins", "min"]

/-- Property names that a plain JavaScript object literal inherits
from `Object.prototype`.  A property read `SCALE[s]` walks the
prototype chain, and reading any of these names yields a truthy value
(a built-in function, or the prototype object itself for
`__proto__`). -/
def objectPrototypeProps : List String :=
  ["constructor", "hasOwnProperty", "isPrototypeOf", "propertyIsEnumerable",
   "toLocaleString", "toString", "valueOf", "__proto__",
   "__defineGetter__", "__defineSetter__", "__lookupGetter__", "__lookupSetter__"]

/-- Embeds the check of `assertValidScale` as a predicate: `SCALE[s]`
is truthy for the two own keys `coins` and `min`, and also — because a
plain-object property read walks the prototype chain — for every
property name inherited from `Object.prototype`, on which the
assertion therefore does not throw either. -/
def validScale (s : String) : Prop :=
  s ∈ scaleKeys ∨ s ∈ objectPrototypeProps

instance : DecidablePred validScale := fun s => by
  unfold validScale; infer_instance

/-- Constructor source of the historical revision: an existing
instance (recognised by the duck-typed `isBigVal` probe), a string, or
a raw engine value. -/
inductive LSrc where
  | inst (b : LBigVal)
  | str (s : String)
  | dec (q : ℚ)

/-- Constructor of the historical revision.  Copying from an instance
takes its magnitude/scale/config and skips validation; otherwise the
source is parsed first (`toDecimal`, which throws on a malformed
numeral) and then the scale is validated (`assertValidScale`), in that
order. -/
def mkLBigVal (src : LSrc) (scale : String) (config : BigValConfig) :
    Except BVErr LBigVal :=
  match src with
  | .inst b => .ok ⟨b._n, b._scale, b._config⟩
  | .str s =>
    match parseDecStr s with
    | none => .error .parseError
    | some q =>
      if validScale scale then .ok ⟨q, scale, config⟩ else .error .invalidScale
  | .dec q =>
    if validScale scale then .ok ⟨q, scale, config⟩ else .error .invalidScale

/-- Embeds the historical bound `mul` closure at a raw engine operand:
`new BigVal(this._n.mul(toDecimal(v)), this._scale, this._config)`
(this revision aligns no scales in arithmetic).  The constructor
re-validates the receiver's scale. -/
def LBigVal.mulDec (v : LBigVal) (q : ℚ) : Except BVErr LBigVal :=
  mkLBigVal (.dec (v._n * q)) v._scale v._config

/-- Embeds the historical `toMinScale`: an already-`min` receiver is
copied via `new BigVal(this)`; otherwise the magnitude is multiplied by
`10^decimals` and the fresh result re-tagged `min` (this is the
self-consistent revision; a sibling revision mistakenly tagged the
result `coins`). -/
def LBigVal.toMinScale (v : LBigVal) : Except BVErr LBigVal :=
  if v._scale = "min" then .ok ⟨v._n, v._scale, v._config⟩
  else do
    let n ← v.mulDec (tenPow v._config.decimals)
    pure { n with _scale := "min" }

/-- Base-10 `toString` of the historical revision (same engine
rendering as the current one). -/
def LBigVal.toStr10 (v : LBigVal) : String := decStr v._n

/-- JavaScript `String#trim` on the character list: whitespace removed
from both ends. -/
def trimChars (cs : List Char) : List Char :=
  ((cs.dropWhile Char.isWhitespace).reverse.dropWhile Char.isWhitespace).reverse

/-- JavaScript `String#split` with a single-character separator:
JavaScript keeps empty fields, and splitting the empty string yields
one empty field. -/
def splitCh (sep : Char) : List Char → List (List Char)
  | [] => [[]]
  | c :: cs =>
    if c = sep then [] :: splitCh sep cs
    else
      match splitCh sep cs with
      | [] => [[c]]
      | t :: ts => (c :: t) :: ts

/-- Embeds the free helper `minStr`: trim, split on spaces, default the
scale token to `min` when only one token is present, construct at the
named scale, convert to `min` scale, render in base 10. -/
def minStr (v : String) (config : BigValConfig) : Except BVErr String := do
  let t := splitCh ' ' (trimChars v.data)
  let t := if t.length = 1 then t ++ [['m', 'i', 'n']] else t
  let b ← mkLBigVal (.str ⟨t.headD []⟩) ⟨(t.drop 1).headD []⟩ config
  let m ← b.toMinScale
  pure m.toStr10

lemma ten_pow_ne_zero (p : Nat) : (10 : ℚ) ^ p ≠ 0 :=
  pow_ne_zero _ (by norm_num)

/-- Consistency check: the primitive embedding of `scaleDown` coincides
with the bound `mul` method applied to the raw power-of-ten operand,
exactly as in the source. -/
lemma scaleDown_eq_mul (v : BigVal) (p : Nat) :
    v.scaleDown p = v.mul (.val (tenPow p)) := rfl

/-- Consistency check: the primitive embedding of `scaleUp` coincides
with the bound `div` method applied to the raw power-of-ten operand. -/
lemma scaleUp_eq_div (v : BigVal) (p : Nat) :
    v.scaleUp p = v.div (.val (tenPow p)) := rfl

lemma toSmallestScale_of_ne (v : BigVal) (h : v._scale ≠ BigValScale.SMALLEST) :
    v.toSmallestScale = ⟨v._n * 10 ^ v._config.decimals, BigValScale.SMALLEST, v._config⟩ := by
  unfold BigVal.toSmallestScale BigVal.scaleDown
  rw [if_neg h, tenPow_eq_pow]

lemma toNormalScale_of_ne (v : BigVal) (h : v._scale ≠ BigValScale.NORMAL) :
    v.toNormalScale = ⟨v._n / 10 ^ v._config.decimals, BigValScale.NORMAL, v._config⟩ := by
  unfold BigVal.toNormalScale BigVal.scaleUp
  rw [if_neg h, tenPow_eq_pow]

/-- C1: every arithmetic operation (`add`, `sub`, `mul`, `div`) and
every comparison (`gt`, `gte`, `lt`, `lte`, `eq`) of a `BigVal`
receiver against a `BigVal` operand first converts the operand to the
receiver's scale (via the operand's `toScale`) and only then combines
or compares magnitudes; in particular adding a `NORMAL`-scale `1`
(decimals 18) to a `SMALLEST`-scale receiver (decimals 18) adds
`1000000000000000000` to the receiver's magnitude. -/
theorem claim1_operand_scale_alignment (r b : BigVal) :
    (r.add (.bv b))._n = r._n + (b.toScale r._scale)._n ∧
    (r.sub (.bv b))._n = r._n - (b.toScale r._scale)._n ∧
    (r.mul (.bv b))._n = r._n * (b.toScale r._scale)._n ∧
    (r.div (.bv b))._n = r._n / (b.toScale r._scale)._n ∧
    r.gt (.bv b) = decide ((b.toScale r._scale)._n < r._n) ∧
    r.gte (.bv b) = decide ((b.toScale r._scale)._n ≤ r._n) ∧
    r.lt (.bv b) = decide (r._n < (b.toScale r._scale)._n) ∧
    r.lte (.bv b) = decide (r._n ≤ (b.toScale r._scale)._n) ∧
    r.eq (.bv b) = decide (r._n = (b.toScale r._scale)._n) ∧
    (r._scale = BigValScale.SMALLEST → b._scale = BigValScale.NORMAL →
      b._config.decimals = 18 → b._n = 1 →
      (r.add (.bv b))._n = r._n + 1000000000000000000) := by
  refine ⟨rfl, rfl, rfl, rfl, rfl, rfl, rfl, rfl, rfl, ?_⟩
  intro hr hb hbd hb1
  show r._n + (b.toScale r._scale)._n = _
  rw [hr]
  show r._n + b.toSmallestScale._n = _
  rw [toSmallestScale_of_ne b (by rw [hb]; exact fun h => nomatch h)]
  rw [hb1, hbd]
  norm_num

/-- Witness for C1 at a concrete receiver (`5` at `SMALLEST`) and
operand (`1` at `NORMAL`, decimals 18). -/
theorem claim1_operand_scale_alignment_wit :
    ((mkBigVal (.val 5) BigValScale.SMALLEST ⟨18⟩).add
        (.bv (mkBigVal (.val 1) BigValScale.NORMAL ⟨18⟩)))._n
      = (mkBigVal (.val 5) BigValScale.SMALLEST ⟨18⟩)._n + 1000000000000000000 :=
  (claim1_operand_scale_alignment
      (mkBigVal (.val 5) BigValScale.SMALLEST ⟨18⟩)
      (mkBigVal (.val 1) BigValScale.NORMAL ⟨18⟩)).2.2.2.2.2.2.2.2.2
    rfl rfl rfl rfl

/-- C2: on a receiver not already at `SMALLEST` scale,
`toSmallestScale` returns a new value whose magnitude is the
receiver's magnitude times `10^decimals` and whose tag is `SMALLEST`;
symmetrically `toNormalScale` divides and tags `NORMAL`; concretely,
`1` at `NORMAL` scale with 18 decimals converts to the string
`1000000000000000000`. -/
theorem claim2_scale_conversion (v : BigVal) :
    (v._scale ≠ BigValScale.SMALLEST →
      v.toSmallestScale
        = ⟨v._n * 10 ^ v._config.decimals, BigValScale.SMALLEST, v._config⟩) ∧
    (v._scale ≠ BigValScale.NORMAL →
      v.toNormalScale
        = ⟨v._n / 10 ^ v._config.decimals, BigValScale.NORMAL, v._config⟩) ∧
    ((mkBigVal (.val 1) BigValScale.NORMAL ⟨18⟩).toSmallestScale).toStr 10
      = "1000000000000000000" := by
  refine ⟨toSmallestScale_of_ne v, toNormalScale_of_ne v, ?_⟩
  with_unfolding_all rfl

/-- Witness for C2 at `1` at `NORMAL` scale and `2` at `SMALLEST`
scale, both with 18 decimals. -/
theorem claim2_scale_conversion_wit :
    (mkBigVal (.val 1) BigValScale.NORMAL ⟨18⟩).toSmallestScale
        = ⟨(1 : ℚ) * 10 ^ (18 : Nat), BigValScale.SMALLEST, ⟨18⟩⟩ ∧
    (mkBigVal (.val 2) BigValScale.SMALLEST ⟨18⟩).toNormalScale
        = ⟨(2 : ℚ) / 10 ^ (18 : Nat), BigValScale.NORMAL, ⟨18⟩⟩ :=
  ⟨(claim2_scale_conversion (mkBigVal (.val 1) BigValScale.NORMAL ⟨18⟩)).1
      (fun h => nomatch h),
   (claim2_scale_conversion (mkBigVal (.val 2) BigValScale.SMALLEST ⟨18⟩)).2.1
      (fun h => nomatch h)⟩

/-- C3: for a `NORMAL`-scale value, converting to `SMALLEST` scale and
back to `NORMAL` scale reproduces the original value exactly — the
magnitude (and the whole instance) round-trips with no loss. -/
theorem claim3_roundtrip_exact (v : BigVal) (h : v._scale = BigValScale.NORMAL) :
    (v.toSmallestScale.toNormalScale)._n = v._n ∧
    v.toSmallestScale.toNormalScale = v := by
  obtain ⟨n, s, c⟩ := v
  simp only at h
  subst h
  have h1 : BigVal.toSmallestScale ⟨n, BigValScale.NORMAL, c⟩
      = ⟨n * 10 ^ c.decimals, BigValScale.SMALLEST, c⟩ :=
    toSmallestScale_of_ne _ (fun h => nomatch h)
  have h2 : BigVal.toNormalScale ⟨n * 10 ^ c.decimals, BigValScale.SMALLEST, c⟩
      = ⟨n * 10 ^ c.decimals / 10 ^ c.decimals, BigValScale.NORMAL, c⟩ :=
    toNormalScale_of_ne _ (fun h => nomatch h)
  rw [h1, h2, mul_div_cancel_right₀ _ (ten_pow_ne_zero c.decimals)]
  exact ⟨rfl, rfl⟩

/-- Witness for C3 at `7` at `NORMAL` scale with 18 decimals. -/
theorem claim3_roundtrip_exact_wit :
    ((mkBigVal (.val 7) BigValScale.NORMAL ⟨18⟩).toSmallestScale.toNormalScale)._n
        = (mkBigVal (.val 7) BigValScale.NORMAL ⟨18⟩)._n ∧
    (mkBigVal (.val 7) BigValScale.NORMAL ⟨18⟩).toSmallestScale.toNormalScale
        = mkBigVal (.val 7) BigValScale.NORMAL ⟨18⟩ :=
  claim3_roundtrip_exact (mkBigVal (.val 7) BigValScale.NORMAL ⟨18⟩) rfl

/-- C4: the arithmetic and comparison methods are receiver- and
operand-immutable: a call leaves the receiver and a `BigVal` operand
exactly as they were (their method bodies contain no assignment to an
existing instance), and each arithmetic result is a brand-new instance
built by the constructor from the combined magnitude and the
receiver's scale and config. -/
theorem claim4_operations_immutable (r : BigVal) (w : BVInput) :
    ((r.addCall w).2.1 = r ∧ (r.addCall w).2.2 = w ∧
      (r.addCall w).1
        = mkBigVal (.val (r._n + toDecimalAtOriginalScale w r)) r._scale r._config) ∧
    ((r.subCall w).2.1 = r ∧ (r.subCall w).2.2 = w ∧
      (r.subCall w).1
        = mkBigVal (.val (r._n - toDecimalAtOriginalScale w r)) r._scale r._config) ∧
    ((r.mulCall w).2.1 = r ∧ (r.mulCall w).2.2 = w ∧
      (r.mulCall w).1
        = mkBigVal (.val (r._n * toDecimalAtOriginalScale w r)) r._scale r._config) ∧
    ((r.divCall w).2.1 = r ∧ (r.divCall w).2.2 = w ∧
      (r.divCall w).1
        = mkBigVal (.val (r._n / toDecimalAtOriginalScale w r)) r._scale r._config) ∧
    (BigVal.cmpCall BigVal.gt r w).2 = (r, w) ∧
    (BigVal.cmpCall BigVal.gte r w).2 = (r, w) ∧
    (BigVal.cmpCall BigVal.lt r w).2 = (r, w) ∧
    (BigVal.cmpCall BigVal.lte r w).2 = (r, w) ∧
    (BigVal.cmpCall BigVal.eq r w).2 = (r, w) :=
  ⟨⟨rfl, rfl, rfl⟩, ⟨rfl, rfl, rfl⟩, ⟨rfl, rfl, rfl⟩, ⟨rfl, rfl, rfl⟩,
    rfl, rfl, rfl, rfl, rfl⟩

/-- C6 counterexample: `toString` with base `7` (a base other than 2,
10 and 16) does not fail — the source's switch has no error branch and
falls through to the engine's base-10 rendering, so the call returns
the decimal string `100`, the same output as base 10. -/
theorem claim6_counterexample :
    (mkBigVal (.val 100) BigValScale.SMALLEST defaultConfig).toStr 7 = "100" ∧
    (mkBigVal (.val 100) BigValScale.SMALLEST defaultConfig).toStr 7
      = (mkBigVal (.val 100) BigValScale.SMALLEST defaultConfig).toStr 10 := by
  constructor <;> with_unfolding_all rfl

/-- C6 amended: for every base other than 2 and 16 (including every
unsupported base such as 7), `toString(base)` returns the engine's
base-10 decimal rendering of the magnitude; no `UnsupportedBaseError`
is raised anywhere in `toString`. -/
theorem claim6_amended_default_base10 (v : BigVal) (base : Int)
    (h2 : base ≠ 2) (h16 : base ≠ 16) :
    v.toStr base = decStr v._n := by
  unfold BigVal.toStr
  rw [if_neg h2, if_neg h16]

/-- Witness for the amended C6 at base 7 on the value `100`. -/
theorem claim6_amended_default_base10_wit :
    ((7 : Int) ≠ 2 ∧ (7 : Int) ≠ 16) ∧
    (mkBigVal (.val 100) BigValScale.SMALLEST defaultConfig).toStr 7
      = decStr (mkBigVal (.val 100) BigValScale.SMALLEST defaultConfig)._n :=
  ⟨⟨by decide, by decide⟩,
    claim6_amended_default_base10 (mkBigVal (.val 100) BigValScale.SMALLEST defaultConfig)
      7 (by decide) (by decide)⟩

/-- C7: constructing from an existing instance copies its magnitude
(by value, through the engine's stringify/re-parse round trip, which
is the identity on exact values), scale and config, and the
`scale`/`config` parameters passed alongside are ignored — any two
parameter choices give the identical copy. -/
theorem claim7_copy_constructor (b : BigVal) (s s2 : BigValScale) (c c2 : BigValConfig) :
    mkBigVal (.inst b) s c = ⟨b._n, b._scale, b._config⟩ ∧
    mkBigVal (.inst b) s c = mkBigVal (.inst b) s2 c2 :=
  ⟨rfl, rfl⟩

/-- C8: converting a value to the scale it already has is the identity
(`toScale` returns the receiver itself, so in particular the magnitude
is unchanged); on the runtime number representation of scale tags, the
two recognized tags dispatch to the two conversions and every other
tag value fails with the `Unrecognized scale` error. -/
theorem claim8_toScale_identity (v : BigVal) (t : Int)
    (h0 : t ≠ 0) (h1 : t ≠ 1) :
    v.toScale v._scale = v ∧
    v.toScaleNum v._scale.toInt = .ok (v.toScale v._scale) ∧
    v.toScaleNum t = .error BVErr.unrecognizedScale := by
  obtain ⟨n, s, c⟩ := v
  refine ⟨?_, ?_, ?_⟩
  · cases s
    · show BigVal.toSmallestScale _ = _
      unfold BigVal.toSmallestScale
      rw [if_pos rfl]
    · show BigVal.toNormalScale _ = _
      unfold BigVal.toNormalScale
      rw [if_pos rfl]
  · cases s <;> rfl
  · unfold BigVal.toScaleNum
    rw [if_neg h0, if_neg h1]

/-- Witness for C8 at the value `3` at `SMALLEST` scale and the
foreign tag `5`. -/
theorem claim8_toScale_identity_wit :
    ((5 : Int) ≠ 0 ∧ (5 : Int) ≠ 1) ∧
    ((mkBigVal (.val 3) BigValScale.SMALLEST defaultConfig).toScale
        (mkBigVal (.val 3) BigValScale.SMALLEST defaultConfig)._scale
      = mkBigVal (.val 3) BigValScale.SMALLEST defaultConfig ∧
     (mkBigVal (.val 3) BigValScale.SMALLEST defaultConfig).toScaleNum
        (mkBigVal (.val 3) BigValScale.SMALLEST defaultConfig)._scale.toInt
      = .ok ((mkBigVal (.val 3) BigValScale.SMALLEST defaultConfig).toScale
          (mkBigVal (.val 3) BigValScale.SMALLEST defaultConfig)._scale) ∧
     (mkBigVal (.val 3) BigValScale.SMALLEST defaultConfig).toScaleNum 5
      = .error BVErr.unrecognizedScale) :=
  ⟨⟨by decide, by decide⟩,
    claim8_toScale_identity (mkBigVal (.val 3) BigValScale.SMALLEST defaultConfig)
      5 (by decide) (by decide)⟩

lemma substrAfter_negBinHead (t : List Char) :
    substrAfter 'b' ('-' :: '0' :: 'b' :: t) = t := rfl

/-- C10: `toString(2)` on a value with negative magnitude returns the
binary digits of the magnitude's absolute value with no minus sign:
the engine renders `-0b<digits>` and the implementation strips every
character up to and including the first `b`, silently dropping the
sign. -/
theorem claim10_binary_sign_dropped (v : BigVal) (h : v._n < 0) :
    v.toStr 2 = ⟨posChars 2 80 v._n.num.natAbs v._n.den⟩ := by
  unfold BigVal.toStr Decimal.toBinary
  rw [if_pos rfl, if_pos h]
  exact congrArg String.mk (substrAfter_negBinHead _)

/-- Witness for C10 at magnitude `-5`: the hypothesis holds, the
theorem applies, and the rendered digit string is `101`
(sign-free). -/
theorem claim10_binary_sign_dropped_wit :
    ((mkBigVal (.val (-5)) BigValScale.SMALLEST defaultConfig)._n < 0) ∧
    (mkBigVal (.val (-5)) BigValScale.SMALLEST defaultConfig).toStr 2
      = ⟨posChars 2 80
          (mkBigVal (.val (-5)) BigValScale.SMALLEST defaultConfig)._n.num.natAbs
          (mkBigVal (.val (-5)) BigValScale.SMALLEST defaultConfig)._n.den⟩ ∧
    (mkBigVal (.val (-5)) BigValScale.SMALLEST defaultConfig).toStr 2 = "101" :=
  ⟨by decide,
    claim10_binary_sign_dropped (mkBigVal (.val (-5)) BigValScale.SMALLEST defaultConfig)
      (by decide),
    by with_unfolding_all rfl⟩

/-- C5 counterexample: the tag `constructor` is outside the two
recognized scale values, yet fresh construction from the parseable
source `1` under it succeeds — `SCALE["constructor"]` finds the
inherited `Object.prototype.constructor`, which is truthy, so
`assertValidScale` does not throw and no `InvalidScaleError` is
raised. -/
theorem claim5_counterexample :
    mkLBigVal (.str "1") "constructor" defaultConfig
      = .ok ⟨1, "constructor", defaultConfig⟩ ∧
    "constructor" ≠ "coins" ∧ "constructor" ≠ "min" :=
  ⟨by with_unfolding_all rfl, by decide, by decide⟩

/-- C5 amended: in the revision that validates scales
(`assertValidScale`), fresh construction from a parseable
non-instance source with a scale tag that is neither one of the two
recognized values nor a property name inherited from
`Object.prototype` fails with the invalid-scale error; a tag naming an
inherited `Object.prototype` property (such as `constructor` or
`toString`) is accepted, because the `!SCALE[s]` lookup walks the
prototype chain; copy-construction from an existing instance performs
no scale validation and always succeeds with a field-for-field
copy. -/
theorem claim5_invalid_scale_on_fresh :
    (∀ (s : String) (q : ℚ) (scale : String) (cfg : BigValConfig),
      parseDecStr s = some q → ¬ validScale scale →
      mkLBigVal (.str s) scale cfg = .error BVErr.invalidScale) ∧
    (∀ (q : ℚ) (scale : String) (cfg : BigValConfig), ¬ validScale scale →
      mkLBigVal (.dec q) scale cfg = .error BVErr.invalidScale) ∧
    (∀ (b : LBigVal) (scale : String) (cfg : BigValConfig),
      mkLBigVal (.inst b) scale cfg = .ok ⟨b._n, b._scale, b._config⟩) ∧
    (∀ (s : String) (q : ℚ) (p : String) (cfg : BigValConfig),
      parseDecStr s = some q → p ∈ objectPrototypeProps →
      mkLBigVal (.str s) p cfg = .ok ⟨q, p, cfg⟩) := by
  refine ⟨?_, ?_, ?_, ?_⟩
  · intro s q scale cfg hp hs
    show (match parseDecStr s with
      | none => (Except.error BVErr.parseError : Except BVErr LBigVal)
      | some q =>
        if validScale scale then Except.ok (⟨q, scale, cfg⟩ : LBigVal)
        else Except.error BVErr.invalidScale)
      = Except.error BVErr.invalidScale
    rw [hp]
    exact if_neg hs
  · intro q scale cfg hs
    unfold mkLBigVal
    exact if_neg hs
  · intro b scale cfg
    rfl
  · intro s q p cfg hp hmem
    show (match parseDecStr s with
      | none => (Except.error BVErr.parseError : Except BVErr LBigVal)
      | some q =>
        if validScale p then Except.ok (⟨q, p, cfg⟩ : LBigVal)
        else Except.error BVErr.invalidScale)
      = Except.ok ⟨q, p, cfg⟩
    rw [hp]
    exact if_pos (Or.inr hmem)

/-- Witness for the amended C5: the numeral `1` with the foreign tag
`bogus` is rejected, copying an instance under the same foreign tag
succeeds untouched, and the inherited-property tag `constructor` is
accepted on fresh construction. -/
theorem claim5_invalid_scale_on_fresh_wit :
    (parseDecStr "1" = some 1 ∧ ¬ validScale "bogus" ∧
      "constructor" ∈ objectPrototypeProps) ∧
    mkLBigVal (.str "1") "bogus" defaultConfig = .error BVErr.invalidScale ∧
    mkLBigVal (.inst ⟨5, "coins", defaultConfig⟩) "bogus" defaultConfig
      = .ok ⟨5, "coins", defaultConfig⟩ ∧
    mkLBigVal (.str "1") "constructor" defaultConfig
      = .ok ⟨1, "constructor", defaultConfig⟩ :=
  ⟨⟨by with_unfolding_all rfl, by decide, by decide⟩,
    claim5_invalid_scale_on_fresh.1 "1" 1 "bogus" defaultConfig
      (by with_unfolding_all rfl) (by decide),
    claim5_invalid_scale_on_fresh.2.2.1 ⟨5, "coins", defaultConfig⟩ "bogus" defaultConfig,
    claim5_invalid_scale_on_fresh.2.2.2 "1" 1 "constructor" defaultConfig
      (by with_unfolding_all rfl) (by decide)⟩

lemma dropWhile_ws_cons (a : Char) (t : List Char) (h : ¬ a.isWhitespace) :
    (a :: t).dropWhile Char.isWhitespace = a :: t := by
  rw [List.dropWhile_cons, if_neg (by simpa using h)]

/-- Trimming is the identity on a list whose first and last characters
are not whitespace. -/
lemma trimChars_cons_concat (a z : Char) (m : List Char)
    (ha : ¬ a.isWhitespace) (hz : ¬ z.isWhitespace) :
    trimChars (a :: (m ++ [z])) = a :: (m ++ [z]) := by
  unfold trimChars
  rw [dropWhile_ws_cons a _ ha]
  have hrev : (a :: (m ++ [z])).reverse = z :: (m.reverse ++ [a]) := by simp
  rw [hrev, dropWhile_ws_cons z _ hz]
  simp

lemma trimChars_single (a : Char) (ha : ¬ a.isWhitespace) :
    trimChars [a] = [a] := by
  unfold trimChars
  rw [dropWhile_ws_cons a [] ha]
  simp [dropWhile_ws_cons a [] ha]

lemma splitCh_cons (sep c : Char) (cs : List Char) :
    splitCh sep (c :: cs)
      = if c = sep then [] :: splitCh sep cs
        else
          match splitCh sep cs with
          | [] => [[c]]
          | t :: ts => (c :: t) :: ts := rfl

/-- Splitting a list containing no separator yields the single field. -/
lemma splitCh_no_sep (sep : Char) (l : List Char) (h : ∀ c ∈ l, c ≠ sep) :
    splitCh sep l = [l] := by
  induction l with
  | nil => rfl
  | cons a t ih =>
    rw [splitCh_cons, if_neg (h a (List.mem_cons_self a t)),
      ih (fun c hc => h c (List.mem_cons_of_mem a hc))]

/-- Splitting peels off a separator-free first field. -/
lemma splitCh_append (sep : Char) (n rest : List Char) (h : ∀ c ∈ n, c ≠ sep) :
    splitCh sep (n ++ sep :: rest) = n :: splitCh sep rest := by
  induction n with
  | nil =>
    show splitCh sep (sep :: rest) = _
    rw [splitCh_cons, if_pos rfl]
  | cons a t ih =>
    show splitCh sep (a :: (t ++ sep :: rest)) = _
    rw [splitCh_cons, if_neg (h a (List.mem_cons_self a t)),
      ih (fun c hc => h c (List.mem_cons_of_mem a hc))]

lemma not_space_of_not_ws {l : List Char} (hw : ∀ c ∈ l, ¬ c.isWhitespace) :
    ∀ c ∈ l, c ≠ ' ' :=
  fun c hc heq => hw c hc (by rw [heq]; decide)

/-- C9: on an input of the form `"<number> <scale-name>"` (and on the
one-token form `"<number>"`, where the scale name defaults to `min`),
`minStr` constructs the value at the named scale, converts it to the
smallest (`min`) scale, and returns its base-10 string; concretely
`1 coins` with 2 decimals gives `100`, and `100` (with the default
config, and with an explicit `min`) gives `100`. -/
theorem claim9_minStr :
    (∀ (n sc : List Char) (cfg : BigValConfig),
      n ≠ [] → sc ≠ [] →
      (∀ c ∈ n, ¬ c.isWhitespace) → (∀ c ∈ sc, ¬ c.isWhitespace) →
      minStr ⟨n ++ ' ' :: sc⟩ cfg
        = (do
            let b ← mkLBigVal (.str ⟨n⟩) ⟨sc⟩ cfg
            let m ← b.toMinScale
            pure m.toStr10)) ∧
    (∀ (n : List Char) (cfg : BigValConfig),
      n ≠ [] → (∀ c ∈ n, ¬ c.isWhitespace) →
      minStr ⟨n⟩ cfg
        = (do
            let b ← mkLBigVal (.str ⟨n⟩) "min" cfg
            let m ← b.toMinScale
            pure m.toStr10)) ∧
    minStr "1 coins" ⟨2⟩ = .ok "100" ∧
    minStr "100" defaultConfig = .ok "100" ∧
    minStr "100 min" defaultConfig = .ok "100" := by
  refine ⟨?_, ?_, ?_, ?_, ?_⟩
  · intro n sc cfg hn hsc hwn hwsc
    obtain ⟨a, n2, rfl⟩ := List.exists_cons_of_ne_nil hn
    rcases List.eq_nil_or_concat sc with rfl | ⟨L, z, rfl⟩
    · exact absurd rfl hsc
    simp only [List.concat_eq_append] at hwsc ⊢
    unfold minStr
    rw [show (String.mk ((a :: n2) ++ ' ' :: (L ++ [z]))).data
        = (a :: n2) ++ ' ' :: (L ++ [z]) from rfl]
    rw [show (a :: n2) ++ ' ' :: (L ++ [z]) = a :: ((n2 ++ ' ' :: L) ++ [z]) by simp]
    rw [trimChars_cons_concat a z _ (hwn a (by simp)) (hwsc z (by simp))]
    rw [show a :: ((n2 ++ ' ' :: L) ++ [z]) = (a :: n2) ++ ' ' :: (L ++ [z]) by simp]
    rw [splitCh_append ' ' (a :: n2) (L ++ [z]) (not_space_of_not_ws hwn)]
    rw [splitCh_no_sep ' ' (L ++ [z]) (not_space_of_not_ws hwsc)]
    rfl
  · intro n cfg hn hwn
    obtain ⟨a, n2, rfl⟩ := List.exists_cons_of_ne_nil hn
    unfold minStr
    rcases List.eq_nil_or_concat n2 with rfl | ⟨L, z, rfl⟩
    · rw [show (String.mk [a]).data = [a] from rfl]
      rw [trimChars_single a (hwn a (by simp))]
      rw [splitCh_no_sep ' ' [a] (not_space_of_not_ws hwn)]
      rfl
    · simp only [List.concat_eq_append] at hwn ⊢
      rw [trimChars_cons_concat a z L (hwn a (by simp)) (hwn z (by simp))]
      rw [splitCh_no_sep ' ' (a :: (L ++ [z])) (not_space_of_not_ws hwn)]
      rfl
  · with_unfolding_all rfl
  · with_unfolding_all rfl
  · with_unfolding_all rfl

/-- Witness for the general clause of C9: the two-token input
`1 coins` with 2 decimals goes through construction at the `coins`
scale, conversion to `min` scale, and base-10 rendering. -/
theorem claim9_minStr_wit :
    minStr ⟨['1'] ++ ' ' :: ['c', 'o', 'i', 'n', 's']⟩ ⟨2⟩
      = (do
          let b ← mkLBigVal (.str ⟨['1']⟩) ⟨['c', 'o', 'i', 'n', 's']⟩ ⟨2⟩
          let m ← b.toMinScale
          pure m.toStr10) :=
  claim9_minStr.1 ['1'] ['c', 'o', 'i', 'n', 's'] ⟨2⟩
    (by decide) (by decide) (by decide) (by decide)
